import Mathlib

/-!
Verification development for the Gue task runner (src/index.js, src/bin/gluey.js).

Gue is a thin wrapper over the external orchestrator library: src/index.js
defines the Gue class (shell execution with lodash-style templating, the
process-wide exitCode flag, the options binding table, the watch loop), and
src/bin/gluey.js is the CLI entry point. The external collaborators
(orchestrator, lodash.template, execa, trim-newlines, chokidar) are not part of
this repository; where their behavior decides a property they are modelled from
the spec, and each such definition says so in its doc comment.
-/

namespace Gue

/-- A binding table: the name to value mapping used both for the process-wide
options table (src/index.js line 23) and call-site template overrides. -/
abbrev Bindings := List (String × String)

/-- Assoc-list lookup, modelling JS object property read. -/
def assocGet {α : Type} : List (String × α) → String → Option α
  | [], _ => none
  | (m, v) :: rest, n => if m = n then some v else assocGet rest n

/-- Assoc-list assignment, modelling JS object property write
(replace in place when the key exists, append otherwise). -/
def assocSet {α : Type} : List (String × α) → String → α → List (String × α)
  | [], n, v => [(n, v)]
  | (m, u) :: rest, n, v =>
    if m = n then (n, v) :: rest else (m, u) :: assocSet rest n v

/-- Modelled from the spec: the lodash.template interpolation used by
Gue._shell (src/index.js lines 220-221) with interpolate tokens
\x7b\x7bidentifier\x7d\x7d. The scanner state is none outside a token and
some acc while accumulating an identifier; an identifier absent from the
binding table renders as the empty string (spec section 4.1, lenient policy). -/
def renderAux (binds : Bindings) : Option (List Char) → List Char → List Char
  | none, [] => []
  | some _, [] => []
  | none, c :: rest =>
    if c = '\x7b' then
      match rest with
      | c2 :: rest2 =>
        if c2 = '\x7b' then renderAux binds (some []) rest2
        else c :: renderAux binds none (c2 :: rest2)
      | [] => [c]
    else c :: renderAux binds none rest
  | some acc, c :: rest =>
    if c = '\x7d' then
      match rest with
      | c2 :: rest2 =>
        if c2 = '\x7d' then
          ((assocGet binds (String.mk acc)).getD "").data ++
            renderAux binds none rest2
        else renderAux binds (some (acc ++ [c])) (c2 :: rest2)
      | [] => []
    else renderAux binds (some (acc ++ [c])) rest

/-- render(template, bindings): the Templating Service contract. -/
def render (binds : Bindings) (tmpl : String) : String :=
  String.mk (renderAux binds none tmpl.data)

/-- Modelled from the spec: trim-newlines as applied by Gue._shell
(src/index.js lines 225-226, 233-234) removes trailing newlines from
captured output before it is handed to reporting (spec section 4.2). -/
def trimNewlines (s : String) : String :=
  String.mk ((s.data.reverse.dropWhile (fun c => c = '\n')).reverse)

/-- The structured result of one subprocess: captured stdout, captured
stderr and the exit status. -/
structure ProcResult where
  stdout : String
  stderr : String
  code : Nat
deriving DecidableEq

/-- Modelled from the spec: execa.shell as called in src/index.js line 222.
The returned promise resolves exactly when the subprocess exits 0 and
rejects with the same structured result otherwise (spec section 4.2:
success iff exit code 0, rejection carries captured output). -/
def execaShell (exec : String → ProcResult) (cmd : String) :
    Except ProcResult ProcResult :=
  let r := exec cmd
  if r.code = 0 then Except.ok r else Except.error r

/-- A registered task: dependency list plus the identity of its action
(actions are not interpreted at registration, so the model keeps an id). -/
structure GueTask where
  deps : List String
  actionId : Nat
deriving DecidableEq

/-- Modelled from the spec: Orchestrator.add as invoked by Gue.task
(src/index.js lines 65-67, super.add). Registration stores the task under
its name in the registry object; re-registration replaces the prior entry
(spec section 3, last registration wins). -/
def addTask (reg : List (String × GueTask)) (n : String) (t : GueTask) :
    List (String × GueTask) :=
  assocSet reg n t

/-- The mutable state of the Gue instance: the process-wide exit status
flag, the options binding table and the task registry
(src/index.js lines 20-24 plus the inherited Orchestrator registry). -/
structure GueState where
  exitCode : Nat
  options : Bindings
  tasks : List (String × GueTask)
deriving DecidableEq

/-- The state built by the Gue constructor (src/index.js lines 20-24):
exitCode 0, empty options, empty registry. -/
def initGue : GueState :=
  { exitCode := 0, options := [], tasks := [] }

/-- Gue.setOption (src/index.js lines 146-148): mutates the process-wide
options table consulted by the templating layer. -/
def setOption (st : GueState) (n v : String) : GueState :=
  { st with options := assocSet st.options n v }

/-- Gue.task (src/index.js lines 65-67): registers a task via the
scheduler registry. -/
def taskRegister (st : GueState) (n : String) (t : GueTask) : GueState :=
  { st with tasks := addTask st.tasks n t }

/-- Gue.taskList (src/index.js lines 155-157): Object.keys(this.tasks). -/
def taskListNames (st : GueState) : List String :=
  st.tasks.map Prod.fst

/-- The JavaScript value passed as the optional values argument of
Gue._shell: either absent (undefined) or a binding table object. -/
inductive JsArg : Type
  | undef : JsArg
  | table : Bindings → JsArg
deriving DecidableEq

/-- JS truthiness of the values argument: undefined is falsy, every
object is truthy. -/
def jsTruthy : JsArg → Bool
  | JsArg.undef => false
  | JsArg.table _ => true

/-- The JS typeof operator on the values argument: a string, never the
undefined value. -/
def jsTypeof : JsArg → String
  | JsArg.undef => "undefined"
  | JsArg.table _ => "object"

/-- The JS strict comparison typeof values !== undefined appearing in
src/index.js line 210: a string is never strictly equal to the undefined
value, so the test is decided by truthiness of values alone. -/
def typeofNotUndef (_a : JsArg) : Bool :=
  true

/-- The binding-table selection of Gue._shell (src/index.js lines 210-211):
const lodashVars = (values && typeof values !== undefined) ? values :
this.options. -/
def lodashVars (values : JsArg) (options : Bindings) : Bindings :=
  if jsTruthy values && typeofNotUndef values then
    match values with
    | JsArg.table b => b
    | JsArg.undef => []
  else options

/-- The fully rendered command string executed by Gue._shell
(src/index.js lines 220-222). -/
def gueRendered (command : String) (values : JsArg) (st : GueState) : String :=
  render (lodashVars values st.options) command

/-- The settled outcome of a shell call: a resolved or a rejected promise
carrying the execa result (src/index.js lines 228 and 236). -/
inductive ShellOutcome : Type
  | resolved : ProcResult → ShellOutcome
  | rejected : ProcResult → ShellOutcome
deriving DecidableEq

/-- What Gue._shell hands to the logging layer: log and errLog messages
(src/index.js lines 225-226 and 233-234). -/
inductive LogEvent : Type
  | out : String → LogEvent
  | err : String → LogEvent
deriving DecidableEq

/-- The mode argument of Gue._shell: print or silent. -/
inductive ShellMode : Type
  | print : ShellMode
  | silent : ShellMode
deriving DecidableEq

/-- Gue._shell (src/index.js lines 208-238): renders the command against
the selected binding table, runs it, prints trimmed captured output in
print mode on both paths, sets the exit flag to 1 on the rejection path,
and passes the execa result through as the settled outcome. exec gives the
subprocess behavior for each concrete command string. -/
def gueShell (exec : String → ProcResult) (mode : ShellMode)
    (command : String) (values : JsArg) (st : GueState) :
    ShellOutcome × GueState × List LogEvent :=
  let cmd := gueRendered command values st
  match execaShell exec cmd with
  | Except.ok r =>
    (ShellOutcome.resolved r, st,
      match mode with
      | ShellMode.print =>
        [LogEvent.err (trimNewlines r.stderr), LogEvent.out (trimNewlines r.stdout)]
      | ShellMode.silent => [])
  | Except.error r =>
    (ShellOutcome.rejected r, { st with exitCode := 1 },
      match mode with
      | ShellMode.print =>
        [LogEvent.err (trimNewlines r.stderr), LogEvent.out (trimNewlines r.stdout)]
      | ShellMode.silent => [])

/-- Gue.shell (src/index.js lines 97-99): _shell in print mode. -/
def shell (exec : String → ProcResult) (command : String) (values : JsArg)
    (st : GueState) : ShellOutcome × GueState × List LogEvent :=
  gueShell exec ShellMode.print command values st

/-- Gue.silentShell (src/index.js lines 111-113): _shell in silent mode. -/
def silentShell (exec : String → ProcResult) (command : String) (values : JsArg)
    (st : GueState) : ShellOutcome × GueState × List LogEvent :=
  gueShell exec ShellMode.silent command values st

/-- The state-mutating operations of the runner, for the exit-flag
invariant: setOption, task registration, and a settled shell call. -/
inductive GueOp : Type
  | setOpt : String → String → GueOp
  | register : String → GueTask → GueOp
  | shellDone : (String → ProcResult) → ShellMode → String → JsArg → GueOp

/-- The state after one operation. -/
def applyOp : GueOp → GueState → GueState
  | GueOp.setOpt n v, st => setOption st n v
  | GueOp.register n t, st => taskRegister st n t
  | GueOp.shellDone exec mode cmd values, st =>
    (gueShell exec mode cmd values st).2.1

/-- The parsed CLI arguments of src/bin/gluey.js: the positional task
names (argv underscore list) and the -l flag. -/
structure CliArgs where
  positional : List String
  listFlag : Bool
deriving DecidableEq

/-- What one CLI invocation does after loading the guefile: either print
the registered task names and exit with the given status without running
anything, or start the given task list. -/
inductive CliOutcome : Type
  | listed : List String → Nat → CliOutcome
  | ran : List String → CliOutcome
deriving DecidableEq

/-- The task list selected by the CLI (src/bin/gluey.js line 39):
actions.length ? actions : the default task. An empty JS array has
length 0, which is falsy. -/
def actionListOf (args : CliArgs) : List String :=
  if args.positional.length ≠ 0 then args.positional else ["default"]

/-- The invoke function of src/bin/gluey.js (lines 38-57) after the
guefile has loaded: with -l it prints taskList() and exits 0 before any
task starts; otherwise it starts the selected task list. -/
def invoke (args : CliArgs) (st : GueState) : CliOutcome :=
  let actionList := actionListOf args
  let availableTasks := taskListNames st
  if args.listFlag then CliOutcome.listed availableTasks 0
  else CliOutcome.ran actionList

/-- One observable event of the watch loop of Gue._watch
(src/index.js lines 255-276): establishing a chokidar subscription over a
glob set for a task list, closing the live subscription, starting the task
list, and the run settling with the given success flag. -/
inductive WatchEvent : Type
  | subscribe : List String → List String → WatchEvent
  | close : WatchEvent
  | runTasks : List String → WatchEvent
  | settle : Bool → WatchEvent
deriving DecidableEq

/-- The event trace of Gue._watch (src/index.js lines 255-276) driven by a
sequence of trigger outcomes, one Bool per file-change trigger telling
whether that cycle's run succeeds. _watch first subscribes; each trigger
closes the watcher, starts the task list, and on settle — the callback of
this.start runs on success and on failure alike (Modelled from the spec:
Orchestrator invokes the start callback when the run settles either way) —
calls _watch again over the same glob set and task list. -/
def watchTrace (glob taskList : List String) : List Bool → List WatchEvent
  | [] => [WatchEvent.subscribe glob taskList]
  | o :: rest =>
    WatchEvent.subscribe glob taskList :: WatchEvent.close ::
      WatchEvent.runTasks taskList :: WatchEvent.settle o ::
        watchTrace glob taskList rest

/-- Recognizer for subscription events. -/
def isSubscribe : WatchEvent → Bool
  | WatchEvent.subscribe _ _ => true
  | _ => false

/-- Recognizer for close events. -/
def isClose : WatchEvent → Bool
  | WatchEvent.close => true
  | _ => false

/-- Recognizer for run-start events. -/
def isRunTasks : WatchEvent → Bool
  | WatchEvent.runTasks _ => true
  | _ => false

/-- Recognizer for settle events. -/
def isSettle : WatchEvent → Bool
  | WatchEvent.settle _ => true
  | _ => false

/-!
The Task Graph Scheduler. Orchestrator, the scheduler Gue inherits from
(src/index.js lines 2 and 12), is an external dependency whose code is not
part of this repository, so the scheduler semantics below are modelled from
the spec, section 4.3: a task becomes ready (starts) when all of its
dependencies have succeeded; a task with a failing action is marked failed;
dependents of a failed task never start; independent branches continue; the
run resolves with the failure flag as a non-zero status.

Tasks in one run's closure are indexed by naturals; the acyclicity the
spec demands before any action starts (section 4.3 step 2) is presented as
well-founded dependencies: every dependency index is smaller than the
task's own index (a topological presentation, always available for an
acyclic graph).
-/

/-- Modelled from the spec: one run's closure of tasks. numTasks is the
closure size, deps i the dependency indices of task i, action i tells
whether task i's action succeeds (tasks without an action count as
succeeding, spec section 4.3 step 4). -/
structure Sched where
  numTasks : Nat
  deps : Nat → List Nat
  action : Nat → Bool

/-- Dependencies respect the topological indexing: every dependency of a
task has a smaller index. -/
def wfDeps (S : Sched) : Prop :=
  ∀ i : Nat, ∀ j ∈ S.deps i, j < i

/-- Fuel-bounded success computation: task i succeeds when all of its
dependencies succeed and its own action succeeds (spec section 4.3
steps 3-5). -/
def succeededFuel (S : Sched) : Nat → Nat → Bool
  | 0, _ => false
  | fuel + 1, i =>
    (S.deps i).all (fun j => succeededFuel S fuel j) && S.action i

/-- Task i reaches the succeeded terminal state. -/
def succeeded (S : Sched) (i : Nat) : Bool :=
  succeededFuel S (i + 1) i

/-- Task i starts: all of its dependencies have succeeded (the ready-set
rule, spec section 4.3 step 3). -/
def started (S : Sched) (i : Nat) : Bool :=
  (S.deps i).all (fun j => succeeded S j)

/-- Task i reaches the failed terminal state: it started and its action
failed (spec section 4.3 step 5). -/
def failed (S : Sched) (i : Nat) : Bool :=
  started S i && !(S.action i)

/-- Transitive dependency: DependsOn S z x holds when x is reachable from
z through dependency edges. -/
inductive DependsOn (S : Sched) : Nat → Nat → Prop
  | direct {i j : Nat} : j ∈ S.deps i → DependsOn S i j
  | trans {i j k : Nat} : j ∈ S.deps i → DependsOn S j k → DependsOn S i k

/-- The process-wide failure flag at the end of the run: some task in the
closure failed. -/
def anyFailed (S : Sched) : Bool :=
  (List.range S.numTasks).any (fun i => failed S i)

/-- The status the run resolves with: 1 when the failure flag is set,
0 otherwise (spec section 4.3 step 6). -/
def runExitCode (S : Sched) : Nat :=
  if anyFailed S then 1 else 0

/-- The scheduler with task x's action outcome replaced by success, for
stating that tasks independent of x are unaffected by x's failure. -/
def flipAction (S : Sched) (x : Nat) : Sched :=
  { S with action := fun i => if i = x then true else S.action i }

/-- A well-formed template is an alternation of literal and token
segments; this syntax-level view lets the substitution property of the
templating scanner be stated for every template at once. -/
inductive Seg : Type
  | lit : List Char → Seg
  | tok : List Char → Seg

/-- The concrete template text denoted by a segment list: tokens appear
in \x7b\x7bidentifier\x7d\x7d form. -/
def flattenSegs : List Seg → List Char
  | [] => []
  | Seg.lit s :: rest => s ++ flattenSegs rest
  | Seg.tok v :: rest =>
    '\x7b' :: '\x7b' :: (v ++ '\x7d' :: '\x7d' :: flattenSegs rest)

/-- The expected rendering of a segment list: literal text kept, each
token replaced by its bound value, an unbound token by the empty string. -/
def substSegs (binds : Bindings) : List Seg → List Char
  | [] => []
  | Seg.lit s :: rest => s ++ substSegs binds rest
  | Seg.tok v :: rest =>
    ((assocGet binds (String.mk v)).getD "").data ++ substSegs binds rest

/-- A well-formed segment: literal text contains no opening brace, a
token identifier is nonempty and contains no closing brace (mirroring the
lazy nonempty interpolation group of the lodash token regex). -/
def wfSeg : Seg → Prop
  | Seg.lit s => '\x7b' ∉ s
  | Seg.tok v => v ≠ [] ∧ '\x7d' ∉ v

instance wfSegDecidable (g : Seg) : Decidable (wfSeg g) :=
  match g with
  | Seg.lit s => inferInstanceAs (Decidable ('\x7b' ∉ s))
  | Seg.tok v => inferInstanceAs (Decidable (v ≠ [] ∧ '\x7d' ∉ v))

section TemplatingLemmas

lemma renderAux_plain (binds : Bindings) (c : Char) (l : List Char)
    (hc : ¬ c = '\x7b') :
    renderAux binds none (c :: l) = c :: renderAux binds none l := by
  rw [renderAux.eq_def]
  simp [if_neg hc]

lemma renderAux_open (binds : Bindings) (rest : List Char) :
    renderAux binds none ('\x7b' :: '\x7b' :: rest) =
      renderAux binds (some []) rest := by
  rw [renderAux.eq_def]
  simp

lemma renderAux_acc (binds : Bindings) (c : Char) (l : List Char)
    (acc : List Char) (hc : ¬ c = '\x7d') :
    renderAux binds (some acc) (c :: l) =
      renderAux binds (some (acc ++ [c])) l := by
  rw [renderAux.eq_def]
  simp [if_neg hc]

lemma renderAux_closeTok (binds : Bindings) (rest : List Char)
    (acc : List Char) :
    renderAux binds (some acc) ('\x7d' :: '\x7d' :: rest) =
      ((assocGet binds (String.mk acc)).getD "").data ++
        renderAux binds none rest := by
  rw [renderAux.eq_def]
  simp

lemma renderAux_lit (binds : Bindings) :
    ∀ (s rest : List Char), '\x7b' ∉ s →
      renderAux binds none (s ++ rest) = s ++ renderAux binds none rest := by
  intro s
  induction s with
  | nil => intro rest _; simp
  | cons c s ih =>
    intro rest hs
    have hc : ¬ c = '\x7b' := by
      intro h; exact hs (h ▸ List.mem_cons_self c s)
    have hs2 : '\x7b' ∉ s := fun h => hs (List.mem_cons_of_mem c h)
    rw [List.cons_append, renderAux_plain binds c _ hc, ih rest hs2]
    simp

lemma renderAux_tok (binds : Bindings) :
    ∀ (v acc rest : List Char), '\x7d' ∉ v →
      renderAux binds (some acc) (v ++ '\x7d' :: '\x7d' :: rest) =
        ((assocGet binds (String.mk (acc ++ v))).getD "").data ++
          renderAux binds none rest := by
  intro v
  induction v with
  | nil => intro acc rest _; simp [renderAux_closeTok]
  | cons c v ih =>
    intro acc rest hv
    have hc : ¬ c = '\x7d' := by
      intro h; exact hv (h ▸ List.mem_cons_self c v)
    have hv2 : '\x7d' ∉ v := fun h => hv (List.mem_cons_of_mem c h)
    rw [List.cons_append, renderAux_acc binds c _ acc hc, ih (acc ++ [c]) rest hv2]
    simp

lemma renderAux_segs (binds : Bindings) :
    ∀ segs : List Seg, (∀ g ∈ segs, wfSeg g) →
      renderAux binds none (flattenSegs segs) = substSegs binds segs := by
  intro segs
  induction segs with
  | nil => intro _; simp [flattenSegs, substSegs, renderAux]
  | cons g rest ih =>
    intro hwf
    have hg : wfSeg g := hwf g (List.mem_cons_self g rest)
    have hrest : ∀ g ∈ rest, wfSeg g := fun g h => hwf g (List.mem_cons_of_mem _ h)
    cases g with
    | lit s =>
      simp only [flattenSegs, substSegs]
      rw [renderAux_lit binds s _ hg, ih hrest]
    | tok v =>
      simp only [flattenSegs, substSegs]
      rw [renderAux_open, renderAux_tok binds v [] _ hg.2, ih hrest]
      simp

end TemplatingLemmas

section TrimLemmas

lemma head_dropWhile_false {p : Char → Bool} :
    ∀ (l : List Char) (c : Char), (l.dropWhile p).head? = some c → p c = false := by
  intro l
  induction l with
  | nil => intro c h; simp [List.dropWhile] at h
  | cons a l ih =>
    intro c h
    by_cases ha : p a
    · rw [List.dropWhile_cons_of_pos ha] at h
      exact ih c h
    · rw [List.dropWhile_cons_of_neg ha] at h
      simp only [List.head?_cons, Option.some.injEq] at h
      subst h
      simpa using ha

lemma trimNewlines_no_trailing (s : String) :
    (trimNewlines s).data.getLast? ≠ some '\n' := by
  intro h
  simp only [trimNewlines] at h
  rw [List.getLast?_reverse] at h
  have := head_dropWhile_false (p := fun c => c = '\n') s.data.reverse '\n' h
  simp at this

end TrimLemmas

section RegistryLemmas

lemma assocGet_assocSet_self {α : Type} (reg : List (String × α)) (n : String)
    (v : α) : assocGet (assocSet reg n v) n = some v := by
  induction reg with
  | nil => simp [assocSet, assocGet]
  | cons p rest ih =>
    by_cases h : p.1 = n
    · simp [assocSet, assocGet, h]
    · simpa [assocSet, assocGet, h] using ih

lemma mem_keys_assocSet {α : Type} (n k : String) (v : α) :
    ∀ reg : List (String × α), k ∈ (assocSet reg n v).map Prod.fst →
      k = n ∨ k ∈ reg.map Prod.fst := by
  intro reg
  induction reg with
  | nil =>
    intro h
    simp only [assocSet, List.map_cons, List.map_nil, List.mem_singleton] at h
    exact Or.inl h
  | cons p rest ih =>
    obtain ⟨m, u⟩ := p
    intro h
    by_cases hp : m = n
    · simp only [assocSet, if_pos hp, List.map_cons, List.mem_cons] at h
      rcases h with h | h
      · exact Or.inl h
      · exact Or.inr (List.mem_cons_of_mem _ h)
    · simp only [assocSet, if_neg hp, List.map_cons, List.mem_cons] at h
      rcases h with h | h
      · exact Or.inr (by simp [h])
      · rcases ih h with h2 | h2
        · exact Or.inl h2
        · exact Or.inr (List.mem_cons_of_mem _ h2)

lemma nodup_keys_assocSet {α : Type} (n : String) (v : α) :
    ∀ reg : List (String × α), (reg.map Prod.fst).Nodup →
      ((assocSet reg n v).map Prod.fst).Nodup := by
  intro reg
  induction reg with
  | nil =>
    intro _
    simp [assocSet]
  | cons p rest ih =>
    obtain ⟨m, u⟩ := p
    intro h
    simp only [List.map_cons, List.nodup_cons] at h
    by_cases hp : m = n
    · simp only [assocSet, if_pos hp, List.map_cons, List.nodup_cons]
      exact ⟨hp ▸ h.1, h.2⟩
    · simp only [assocSet, if_neg hp, List.map_cons, List.nodup_cons]
      refine ⟨?_, ih h.2⟩
      intro hk
      rcases mem_keys_assocSet n m v rest hk with h2 | h2
      · exact hp h2
      · exact h.1 h2

lemma mem_keys_assocSet_self {α : Type} (n : String) (v : α) :
    ∀ reg : List (String × α), n ∈ (assocSet reg n v).map Prod.fst := by
  intro reg
  induction reg with
  | nil => simp [assocSet]
  | cons p rest ih =>
    obtain ⟨m, u⟩ := p
    by_cases hp : m = n
    · simp [assocSet, hp]
    · simp only [assocSet, if_neg hp, List.map_cons, List.mem_cons]
      exact Or.inr ih

end RegistryLemmas

/-- C7 — re-registering a task under the same name leaves exactly one
entry for that name, carrying the dependencies and action of the second
registration (last registration wins, src/index.js lines 65-67 delegating
to the registry), and name-uniqueness of the registry is preserved. -/
theorem taskReregistration (reg : List (String × GueTask)) (n : String)
    (t1 t2 : GueTask) :
    assocGet (addTask (addTask reg n t1) n t2) n = some t2
    ∧ ((assocGet (addTask (addTask reg n t1) n t2) n).map GueTask.deps
        = some t2.deps
      ∧ (assocGet (addTask (addTask reg n t1) n t2) n).map GueTask.actionId
        = some t2.actionId)
    ∧ ((reg.map Prod.fst).Nodup →
        ((addTask (addTask reg n t1) n t2).map Prod.fst).Nodup)
    ∧ ((reg.map Prod.fst).Nodup →
        ((addTask (addTask reg n t1) n t2).map Prod.fst).count n = 1) := by
  have hget : assocGet (addTask (addTask reg n t1) n t2) n = some t2 :=
    assocGet_assocSet_self _ n t2
  refine ⟨hget, ⟨by rw [hget]; rfl, by rw [hget]; rfl⟩, ?_, ?_⟩
  · intro h
    exact nodup_keys_assocSet n t2 _ (nodup_keys_assocSet n t1 reg h)
  · intro h
    have hnd : ((addTask (addTask reg n t1) n t2).map Prod.fst).Nodup :=
      nodup_keys_assocSet n t2 _ (nodup_keys_assocSet n t1 reg h)
    exact List.count_eq_one_of_mem hnd (mem_keys_assocSet_self n t2 _)

/-- Witness for C7 at a concrete registry. -/
theorem taskReregistration_witness :
    assocGet (addTask (addTask [("a", GueTask.mk [] 7)] "a" (GueTask.mk ["d1"] 1))
        "a" (GueTask.mk ["d2"] 2)) "a" = some (GueTask.mk ["d2"] 2)
    ∧ ((addTask (addTask [("a", GueTask.mk [] 7)] "a" (GueTask.mk ["d1"] 1))
        "a" (GueTask.mk ["d2"] 2)).map Prod.fst).count "a" = 1 := by
  have h := taskReregistration [("a", GueTask.mk [] 7)] "a"
    (GueTask.mk ["d1"] 1) (GueTask.mk ["d2"] 2)
  exact ⟨h.1, h.2.2.2 (by decide)⟩

/-- C2 — the exit-status flag starts at 0 at construction
(src/index.js line 22), every state-mutating operation either leaves it
unchanged or sets it to 1, it is set to the non-zero marker whenever a
shell action fails (src/index.js line 231), and once non-zero it is never
reset during the run. -/
theorem exitFlagMonotone :
    initGue.exitCode = 0
    ∧ (∀ (op : GueOp) (st : GueState),
        (applyOp op st).exitCode = st.exitCode ∨ (applyOp op st).exitCode = 1)
    ∧ (∀ (op : GueOp) (st : GueState), st.exitCode ≠ 0 →
        (applyOp op st).exitCode ≠ 0)
    ∧ (∀ (exec : String → ProcResult) (mode : ShellMode) (cmd : String)
        (values : JsArg) (st : GueState),
        (exec (gueRendered cmd values st)).code ≠ 0 →
        (applyOp (GueOp.shellDone exec mode cmd values) st).exitCode = 1) := by
  have hstep : ∀ (op : GueOp) (st : GueState),
      (applyOp op st).exitCode = st.exitCode ∨ (applyOp op st).exitCode = 1 := by
    intro op st
    cases op with
    | setOpt n v => exact Or.inl rfl
    | register n t => exact Or.inl rfl
    | shellDone exec mode cmd values =>
      by_cases h : (exec (gueRendered cmd values st)).code = 0
      · exact Or.inl (by simp [applyOp, gueShell, execaShell, h])
      · exact Or.inr (by simp [applyOp, gueShell, execaShell, h])
  refine ⟨rfl, hstep, ?_, ?_⟩
  · intro op st h
    rcases hstep op st with h2 | h2 <;> rw [h2]
    · exact h
    · exact one_ne_zero
  · intro exec mode cmd values st h
    simp [applyOp, gueShell, execaShell, h]

/-- Witness for C2 at a concrete failing shell operation. -/
theorem exitFlagMonotone_witness :
    (applyOp (GueOp.shellDone (fun _ => ProcResult.mk "o" "e" 2)
        ShellMode.print "c" JsArg.undef) initGue).exitCode = 1
    ∧ (applyOp (GueOp.setOpt "a" "b")
        { exitCode := 1, options := [], tasks := [] }).exitCode ≠ 0 := by
  refine ⟨?_, ?_⟩
  · exact exitFlagMonotone.2.2.2 (fun _ => ProcResult.mk "o" "e" 2)
      ShellMode.print "c" JsArg.undef initGue (by decide)
  · exact exitFlagMonotone.2.2.1 (GueOp.setOpt "a" "b")
      { exitCode := 1, options := [], tasks := [] } (by decide)

/-- C3 — a shell call settles as resolved exactly when the subprocess
exits 0; a non-zero exit settles as a rejected outcome carrying the
captured stdout and stderr of that subprocess, and the call always
produces a settled outcome (resolved or rejected) rather than a thrown
fault (src/index.js lines 222-237). -/
theorem shellExitStatus (exec : String → ProcResult) (mode : ShellMode)
    (cmd : String) (values : JsArg) (st : GueState) :
    ((gueShell exec mode cmd values st).1
        = ShellOutcome.resolved (exec (gueRendered cmd values st))
      ↔ (exec (gueRendered cmd values st)).code = 0)
    ∧ ((exec (gueRendered cmd values st)).code ≠ 0 →
        (gueShell exec mode cmd values st).1
          = ShellOutcome.rejected (exec (gueRendered cmd values st)))
    ∧ (∀ r : ProcResult,
        (gueShell exec mode cmd values st).1 = ShellOutcome.rejected r →
        r.stdout = (exec (gueRendered cmd values st)).stdout
        ∧ r.stderr = (exec (gueRendered cmd values st)).stderr)
    ∧ ((gueShell exec mode cmd values st).1
          = ShellOutcome.resolved (exec (gueRendered cmd values st))
      ∨ (gueShell exec mode cmd values st).1
          = ShellOutcome.rejected (exec (gueRendered cmd values st))) := by
  by_cases h : (exec (gueRendered cmd values st)).code = 0
  · refine ⟨⟨fun _ => h, fun _ => ?_⟩, fun hn => absurd h hn, ?_, ?_⟩
    · simp [gueShell, execaShell, h]
    · intro r hr
      simp [gueShell, execaShell, h] at hr
    · exact Or.inl (by simp [gueShell, execaShell, h])
  · have hrej : (gueShell exec mode cmd values st).1
        = ShellOutcome.rejected (exec (gueRendered cmd values st)) := by
      simp [gueShell, execaShell, h]
    refine ⟨⟨fun hres => ?_, fun h0 => absurd h0 h⟩, fun _ => hrej, ?_, Or.inr hrej⟩
    · rw [hrej] at hres
      exact absurd hres (by simp)
    · intro r hr
      rw [hrej] at hr
      have h2 : exec (gueRendered cmd values st) = r := by
        injection hr
      rw [← h2]
      exact ⟨rfl, rfl⟩

/-- Witness for C3 at a concrete failing subprocess. -/
theorem shellExitStatus_witness :
    (gueShell (fun _ => ProcResult.mk "so" "se" 3) ShellMode.print "c"
        JsArg.undef initGue).1
      = ShellOutcome.rejected
          ((fun _ => ProcResult.mk "so" "se" 3)
            (gueRendered "c" JsArg.undef initGue)) := by
  exact (shellExitStatus (fun _ => ProcResult.mk "so" "se" 3) ShellMode.print
    "c" JsArg.undef initGue).2.1 (by decide)

/-- C5 — a call-site-supplied binding table is used verbatim for template
substitution, and with no call-site table the process-wide options table
(as populated by setOption) is used (src/index.js lines 210-211 and
146-148). -/
theorem bindingPrecedence (cmd : String) (b : Bindings) (st : GueState)
    (n v : String) :
    lodashVars (JsArg.table b) st.options = b
    ∧ lodashVars JsArg.undef st.options = st.options
    ∧ gueRendered cmd (JsArg.table b) st = render b cmd
    ∧ gueRendered cmd JsArg.undef st = render st.options cmd
    ∧ (setOption st n v).options = assocSet st.options n v
    ∧ assocGet (setOption st n v).options n = some v := by
  refine ⟨rfl, rfl, rfl, rfl, rfl, ?_⟩
  exact assocGet_assocSet_self st.options n v

/-- Witness for C5 at a concrete command, table and state. -/
theorem bindingPrecedence_witness :
    gueRendered "echo \x7b\x7bv\x7d\x7d" (JsArg.table [("v", "woot")])
        (setOption initGue "v" "opt") = render [("v", "woot")] "echo \x7b\x7bv\x7d\x7d"
    ∧ gueRendered "echo \x7b\x7bv\x7d\x7d" JsArg.undef
        (setOption initGue "v" "opt")
      = render (setOption initGue "v" "opt").options "echo \x7b\x7bv\x7d\x7d"
    ∧ assocGet (setOption initGue "v" "opt").options "v" = some "opt" := by
  have h := bindingPrecedence "echo \x7b\x7bv\x7d\x7d" [("v", "woot")]
    (setOption initGue "v" "opt") "v" "opt"
  exact ⟨h.2.2.1, h.2.2.2.1, (bindingPrecedence "echo \x7b\x7bv\x7d\x7d"
    [("v", "woot")] initGue "v" "opt").2.2.2.2.2⟩

/-- C10 — for every command, binding argument and state, silentShell
settles with the same outcome as shell and leaves the state (including
the exit flag) identical; the two differ only in that silentShell hands
nothing to the logging layer (src/index.js lines 97-113 and 208-238). -/
theorem silentShellRefines (exec : String → ProcResult) (cmd : String)
    (values : JsArg) (st : GueState) :
    (silentShell exec cmd values st).1 = (shell exec cmd values st).1
    ∧ (silentShell exec cmd values st).2.1 = (shell exec cmd values st).2.1
    ∧ (silentShell exec cmd values st).2.2 = []
    ∧ shell exec cmd values st = gueShell exec ShellMode.print cmd values st
    ∧ silentShell exec cmd values st
        = gueShell exec ShellMode.silent cmd values st := by
  by_cases h : (exec (gueRendered cmd values st)).code = 0 <;>
    exact ⟨by simp [shell, silentShell, gueShell, execaShell, h],
      by simp [shell, silentShell, gueShell, execaShell, h],
      by simp [shell, silentShell, gueShell, execaShell, h], rfl, rfl⟩

/-- Witness for C10 at a concrete failing subprocess. -/
theorem silentShellRefines_witness :
    (silentShell (fun _ => ProcResult.mk "so" "se" 3) "c" JsArg.undef initGue).1
      = (shell (fun _ => ProcResult.mk "so" "se" 3) "c" JsArg.undef initGue).1
    ∧ (silentShell (fun _ => ProcResult.mk "so" "se" 3) "c" JsArg.undef
        initGue).2.2 = [] := by
  have h := silentShellRefines (fun _ => ProcResult.mk "so" "se" 3) "c"
    JsArg.undef initGue
  exact ⟨h.1, h.2.2.1⟩

/-- C4 — rendering a well-formed template substitutes each
\x7b\x7bidentifier\x7d\x7d token with its bound value and an identifier
absent from the binding table with the empty string, without failing; in
particular the round trips of the spec hold: rendering echo
\x7b\x7bv\x7d\x7d against v bound to woot yields echo woot, and against
the empty table yields echo followed by a space. -/
theorem templateSubstitution :
    (∀ (binds : Bindings) (segs : List Seg), (∀ g ∈ segs, wfSeg g) →
      renderAux binds none (flattenSegs segs) = substSegs binds segs)
    ∧ render [("v", "woot")] "echo \x7b\x7bv\x7d\x7d" = "echo woot"
    ∧ render [] "echo \x7b\x7bv\x7d\x7d" = "echo " := by
  refine ⟨?_, by decide, by decide⟩
  intro binds segs h
  exact renderAux_segs binds segs h

/-- Witness for C4 at a concrete segment list and binding tables. -/
theorem templateSubstitution_witness :
    renderAux [("v", "woot")] none
        (flattenSegs [Seg.lit "echo ".data, Seg.tok ['v']])
      = substSegs [("v", "woot")] [Seg.lit "echo ".data, Seg.tok ['v']]
    ∧ render [] "echo \x7b\x7bv\x7d\x7d" = "echo " := by
  refine ⟨?_, templateSubstitution.2.2⟩
  exact templateSubstitution.1 [("v", "woot")]
    [Seg.lit "echo ".data, Seg.tok ['v']] (by decide)

/-- C8 — on the success path and on the failure path alike, what a print
mode shell call hands to the logging layer is exactly the captured stderr
and stdout passed through trimNewlines (src/index.js lines 225-226 and
233-234), and a trimmed string never ends in a newline. -/
theorem outputTrimmed (exec : String → ProcResult) (cmd : String)
    (values : JsArg) (st : GueState) :
    ((exec (gueRendered cmd values st)).code = 0 →
      (gueShell exec ShellMode.print cmd values st).2.2 =
        [LogEvent.err (trimNewlines (exec (gueRendered cmd values st)).stderr),
         LogEvent.out (trimNewlines (exec (gueRendered cmd values st)).stdout)])
    ∧ ((exec (gueRendered cmd values st)).code ≠ 0 →
      (gueShell exec ShellMode.print cmd values st).2.2 =
        [LogEvent.err (trimNewlines (exec (gueRendered cmd values st)).stderr),
         LogEvent.out (trimNewlines (exec (gueRendered cmd values st)).stdout)])
    ∧ (∀ s : String, (trimNewlines s).data.getLast? ≠ some '\n') := by
  refine ⟨?_, ?_, trimNewlines_no_trailing⟩
  · intro h
    simp [gueShell, execaShell, h]
  · intro h
    simp [gueShell, execaShell, h]

/-- Witness for C8 at a concrete failing subprocess. -/
theorem outputTrimmed_witness :
    (gueShell (fun _ => ProcResult.mk "so\n" "se\n" 3) ShellMode.print "c"
        JsArg.undef initGue).2.2 =
      [LogEvent.err (trimNewlines
        ((fun _ => ProcResult.mk "so\n" "se\n" 3)
          (gueRendered "c" JsArg.undef initGue)).stderr),
       LogEvent.out (trimNewlines
        ((fun _ => ProcResult.mk "so\n" "se\n" 3)
          (gueRendered "c" JsArg.undef initGue)).stdout)]
    ∧ (trimNewlines "so\n").data.getLast? ≠ some '\n' := by
  have h := outputTrimmed (fun _ => ProcResult.mk "so\n" "se\n" 3) "c"
    JsArg.undef initGue
  exact ⟨h.2.1 (by decide), h.2.2 "so\n"⟩

/-- C9 — the CLI runs the task named default when given no positional
arguments, runs exactly the named tasks otherwise, and with the -l flag
prints the registered task names and exits 0 without starting any task
(src/bin/gluey.js lines 38-57, src/index.js lines 155-157). -/
theorem cliInvocation (args : CliArgs) (st : GueState) :
    (args.positional = [] → args.listFlag = false →
      invoke args st = CliOutcome.ran ["default"])
    ∧ (args.positional ≠ [] → args.listFlag = false →
      invoke args st = CliOutcome.ran args.positional)
    ∧ (args.listFlag = true →
      invoke args st = CliOutcome.listed (taskListNames st) 0)
    ∧ (args.listFlag = true → ∀ ts : List String,
      invoke args st ≠ CliOutcome.ran ts) := by
  refine ⟨?_, ?_, ?_, ?_⟩
  · intro hp hl
    simp [invoke, actionListOf, hp, hl]
  · intro hp hl
    have : args.positional.length ≠ 0 := by
      simpa [List.length_eq_zero] using hp
    simp [invoke, actionListOf, this, hl]
  · intro hl
    simp [invoke, hl]
  · intro hl ts
    simp [invoke, hl]

/-- Witness for C9 at concrete CLI invocations. -/
theorem cliInvocation_witness :
    invoke (CliArgs.mk [] false) initGue = CliOutcome.ran ["default"]
    ∧ invoke (CliArgs.mk ["coverage", "lint"] false) initGue
      = CliOutcome.ran ["coverage", "lint"]
    ∧ invoke (CliArgs.mk [] true) (taskRegister initGue "t1" (GueTask.mk [] 0))
      = CliOutcome.listed
          (taskListNames (taskRegister initGue "t1" (GueTask.mk [] 0))) 0 := by
  refine ⟨?_, ?_, ?_⟩
  · exact (cliInvocation (CliArgs.mk [] false) initGue).1 rfl rfl
  · exact (cliInvocation (CliArgs.mk ["coverage", "lint"] false) initGue).2.1
      (by decide) rfl
  · exact (cliInvocation (CliArgs.mk [] true)
      (taskRegister initGue "t1" (GueTask.mk [] 0))).2.2.1 rfl

section WatchLemmas

lemma getLast?_cons_of_getLast? {α : Type} {a b : α} {l : List α}
    (h : l.getLast? = some b) : (a :: l).getLast? = some b := by
  cases l with
  | nil => simp at h
  | cons c l2 => rw [List.getLast?_cons_cons]; exact h

lemma watchTrace_counts (g t : List String) :
    ∀ os : List Bool,
      (watchTrace g t os).countP isSubscribe = os.length + 1
      ∧ (watchTrace g t os).countP isClose = os.length
      ∧ (watchTrace g t os).countP isRunTasks = os.length
      ∧ (watchTrace g t os).countP isSettle = os.length := by
  intro os
  induction os with
  | nil =>
    simp [watchTrace, List.countP_cons, isSubscribe, isClose, isRunTasks,
      isSettle]
  | cons o rest ih =>
    have h1 := ih.1
    have h2 := ih.2.1
    have h3 := ih.2.2.1
    have h4 := ih.2.2.2
    refine ⟨?_, ?_, ?_, ?_⟩ <;>
      simp [watchTrace, List.countP_cons, isSubscribe, isClose, isRunTasks,
        isSettle, h1, h2, h3, h4]

lemma watchTrace_prefix_counts (g t : List String) :
    ∀ (os : List Bool) (n : Nat),
      ((watchTrace g t os).take n).countP isRunTasks
        ≤ ((watchTrace g t os).take n).countP isClose
      ∧ ((watchTrace g t os).take n).countP isSettle
        ≤ ((watchTrace g t os).take n).countP isRunTasks
      ∧ ((watchTrace g t os).take n).countP isSubscribe
        ≤ ((watchTrace g t os).take n).countP isSettle + 1 := by
  intro os
  induction os with
  | nil =>
    intro n
    match n with
    | 0 => simp
    | n + 1 =>
      simp [watchTrace, List.take_succ_cons, List.countP_cons, isSubscribe,
        isClose, isRunTasks, isSettle]
  | cons o rest ih =>
    intro n
    match n with
    | 0 => simp
    | 1 =>
      simp [watchTrace, List.take_succ_cons, List.countP_cons, isSubscribe,
        isClose, isRunTasks, isSettle]
    | 2 =>
      simp [watchTrace, List.take_succ_cons, List.countP_cons, isSubscribe,
        isClose, isRunTasks, isSettle]
    | 3 =>
      simp [watchTrace, List.take_succ_cons, List.countP_cons, isSubscribe,
        isClose, isRunTasks, isSettle]
    | n + 4 =>
      have h := ih n
      simp [watchTrace, List.take_succ_cons, List.countP_cons,
        isSubscribe, isClose, isRunTasks, isSettle] at h ⊢
      omega

lemma watchTrace_events (g t : List String) :
    ∀ os : List Bool, ∀ e ∈ watchTrace g t os,
      (isSubscribe e = true → e = WatchEvent.subscribe g t)
      ∧ (isRunTasks e = true → e = WatchEvent.runTasks t) := by
  intro os
  induction os with
  | nil =>
    intro e he
    simp only [watchTrace, List.mem_singleton] at he
    subst he
    exact ⟨fun _ => rfl, fun h => by simp [isRunTasks] at h⟩
  | cons o rest ih =>
    intro e he
    simp only [watchTrace, List.mem_cons] at he
    rcases he with he | he | he | he | he
    · subst he; exact ⟨fun _ => rfl, fun h => by simp [isRunTasks] at h⟩
    · subst he
      exact ⟨fun h => by simp [isSubscribe] at h,
        fun h => by simp [isRunTasks] at h⟩
    · subst he; exact ⟨fun h => by simp [isSubscribe] at h, fun _ => rfl⟩
    · subst he
      exact ⟨fun h => by simp [isSubscribe] at h,
        fun h => by simp [isRunTasks] at h⟩
    · exact ih e he

lemma watchTrace_getLast (g t : List String) :
    ∀ os : List Bool,
      (watchTrace g t os).getLast? = some (WatchEvent.subscribe g t) := by
  intro os
  induction os with
  | nil => rfl
  | cons o rest ih =>
    simp only [watchTrace]
    exact getLast?_cons_of_getLast? (getLast?_cons_of_getLast?
      (getLast?_cons_of_getLast? (getLast?_cons_of_getLast? ih)))

end WatchLemmas

/-- C6 — over every sequence of watch-cycle outcomes (each run succeeding
or failing): in every prefix of the event trace the number of runs never
exceeds the number of teardowns (the live subscription is closed before
the task list runs, src/index.js line 269) and the number of subscriptions
never exceeds the number of settled runs plus the initial one (a new
subscription appears only after the run settles); over the whole trace
there is exactly one new subscription per settled run; every subscription
is over the same glob set and task list; and the trace ends with a live
subscription no matter how many runs failed (a failure never terminates
the watch loop, src/index.js lines 270-272). -/
theorem watchCycleProtocol (glob taskList : List String) (os : List Bool) :
    (∀ n : Nat,
      ((watchTrace glob taskList os).take n).countP isRunTasks
        ≤ ((watchTrace glob taskList os).take n).countP isClose
      ∧ ((watchTrace glob taskList os).take n).countP isSettle
        ≤ ((watchTrace glob taskList os).take n).countP isRunTasks
      ∧ ((watchTrace glob taskList os).take n).countP isSubscribe
        ≤ ((watchTrace glob taskList os).take n).countP isSettle + 1)
    ∧ (watchTrace glob taskList os).countP isSubscribe = os.length + 1
    ∧ (watchTrace glob taskList os).countP isClose = os.length
    ∧ (watchTrace glob taskList os).countP isRunTasks = os.length
    ∧ (watchTrace glob taskList os).countP isSettle = os.length
    ∧ (∀ e ∈ watchTrace glob taskList os,
        isSubscribe e = true → e = WatchEvent.subscribe glob taskList)
    ∧ (∀ e ∈ watchTrace glob taskList os,
        isRunTasks e = true → e = WatchEvent.runTasks taskList)
    ∧ (watchTrace glob taskList os).getLast?
        = some (WatchEvent.subscribe glob taskList) := by
  refine ⟨watchTrace_prefix_counts glob taskList os,
    (watchTrace_counts glob taskList os).1,
    (watchTrace_counts glob taskList os).2.1,
    (watchTrace_counts glob taskList os).2.2.1,
    (watchTrace_counts glob taskList os).2.2.2,
    fun e he => (watchTrace_events glob taskList os e he).1,
    fun e he => (watchTrace_events glob taskList os e he).2,
    watchTrace_getLast glob taskList os⟩

/-- Witness for C6 on a single failing watch cycle. -/
theorem watchCycleProtocol_witness :
    ((watchTrace ["src"] ["lint"] [false]).take 3).countP isRunTasks
      ≤ ((watchTrace ["src"] ["lint"] [false]).take 3).countP isClose
    ∧ (watchTrace ["src"] ["lint"] [false]).countP isSubscribe = 2
    ∧ (watchTrace ["src"] ["lint"] [false]).getLast?
        = some (WatchEvent.subscribe ["src"] ["lint"]) := by
  have h := watchCycleProtocol ["src"] ["lint"] [false]
  exact ⟨(h.1 3).1, h.2.1, h.2.2.2.2.2.2.2⟩

section SchedulerLemmas

lemma all_congr_mem {α : Type} :
    ∀ {l : List α} {f g : α → Bool}, (∀ x ∈ l, f x = g x) →
      l.all f = l.all g := by
  intro l f g h
  induction l with
  | nil => rfl
  | cons a l2 ih =>
    simp only [List.all_cons]
    rw [h a (List.mem_cons_self a l2),
      ih (fun x hx => h x (List.mem_cons_of_mem a hx))]

lemma succeededFuel_stable (S : Sched) (hwf : wfDeps S) :
    ∀ (i fuel : Nat), i < fuel → succeededFuel S fuel i = succeeded S i := by
  intro i
  induction i using Nat.strong_induction_on with
  | _ i ih =>
    intro fuel hfuel
    obtain ⟨f, rfl⟩ : ∃ f, fuel = f + 1 := ⟨fuel - 1, by omega⟩
    rw [succeeded]
    simp only [succeededFuel]
    congr 1
    apply all_congr_mem
    intro j hj
    have hji : j < i := hwf i j hj
    rw [ih j hji f (by omega), ih j hji i (by omega)]

lemma succeeded_unfold (S : Sched) (hwf : wfDeps S) (i : Nat) :
    succeeded S i = (started S i && S.action i) := by
  rw [succeeded]
  simp only [succeededFuel]
  congr 1
  rw [started]
  apply all_congr_mem
  intro j hj
  exact succeededFuel_stable S hwf j i (hwf i j hj)

lemma started_terminal (S : Sched) (hwf : wfDeps S) (i : Nat)
    (h : started S i = true) :
    succeeded S i = true ∨ failed S i = true := by
  rw [succeeded_unfold S hwf i, failed, h]
  cases ha : S.action i <;> simp [ha]

lemma started_false_of_dep (S : Sched) {i j : Nat} (hj : j ∈ S.deps i)
    (hs : succeeded S j = false) : started S i = false := by
  rw [started, List.all_eq_false]
  exact ⟨j, hj, by simp [hs]⟩

lemma depends_blocked (S : Sched) (hwf : wfDeps S) :
    ∀ (z x : Nat), DependsOn S z x → succeeded S x = false →
      started S z = false := by
  intro z x h
  induction h with
  | @direct i j hj =>
    intro hs
    exact started_false_of_dep S hj hs
  | @trans i j k hj hd ihd =>
    intro hs
    have hjf := ihd hs
    have hsj : succeeded S j = false := by
      rw [succeeded_unfold S hwf j, hjf]
      rfl
    exact started_false_of_dep S hj hsj

lemma subtree_success (S : Sched) (hwf : wfDeps S) :
    ∀ y : Nat, (∀ j, DependsOn S y j → S.action j = true) →
      S.action y = true → succeeded S y = true := by
  intro y
  induction y using Nat.strong_induction_on with
  | _ y ih =>
    intro hsub hy
    rw [succeeded_unfold S hwf y, hy, Bool.and_true, started, List.all_eq_true]
    intro j hj
    have hjy : j < y := hwf y j hj
    exact ih j hjy (fun k hk => hsub k (DependsOn.trans hj hk))
      (hsub j (DependsOn.direct hj))

lemma flip_fuel (S : Sched) (x : Nat) :
    ∀ (fuel y : Nat), ¬ DependsOn S y x → y ≠ x →
      succeededFuel (flipAction S x) fuel y = succeededFuel S fuel y := by
  intro fuel
  induction fuel with
  | zero => intro y _ _; rfl
  | succ f ihf =>
    intro y hnd hne
    simp only [succeededFuel]
    have hact : (flipAction S x).action y = S.action y := by
      simp [flipAction, hne]
    have hdeps : (flipAction S x).deps y = S.deps y := rfl
    rw [hact, hdeps]
    congr 1
    apply all_congr_mem
    intro j hj
    apply ihf j
    · intro hd; exact hnd (DependsOn.trans hj hd)
    · intro he; exact hnd (he ▸ DependsOn.direct hj)

lemma flip_succeeded (S : Sched) (x y : Nat) (hnd : ¬ DependsOn S y x)
    (hne : y ≠ x) : succeeded (flipAction S x) y = succeeded S y :=
  flip_fuel S x (y + 1) y hnd hne

lemma flip_started (S : Sched) (x y : Nat) (hnd : ¬ DependsOn S y x)
    (_hne : y ≠ x) : started (flipAction S x) y = started S y := by
  rw [started, started]
  apply all_congr_mem
  intro j hj
  apply flip_succeeded S x j
  · intro hd; exact hnd (DependsOn.trans hj hd)
  · intro he; exact hnd (he ▸ DependsOn.direct hj)

lemma flip_failed (S : Sched) (x y : Nat) (hnd : ¬ DependsOn S y x)
    (hne : y ≠ x) : failed (flipAction S x) y = failed S y := by
  rw [failed, failed, flip_started S x y hnd hne]
  have hact : (flipAction S x).action y = S.action y := by
    simp [flipAction, hne]
  rw [hact]

end SchedulerLemmas

/-- C1 — Modelled from the spec (the scheduler is the external
orchestrator library): in a run whose closure is an acyclic task graph, if
task x starts and its action fails then x is marked failed, the
process-wide failure flag is recorded and the run resolves with failure
status 1; every task that transitively depends on x never starts; every
task independent of x has exactly the start/terminal status it would have
had if x had succeeded, and in particular succeeds whenever its own
dependency subtree succeeds; and every started task reaches a terminal
state, every task being either never started or terminal (the run
resolves). -/
theorem taskFailurePropagation (S : Sched) (x : Nat) (hwf : wfDeps S)
    (hx : x < S.numTasks) (hstart : started S x = true)
    (hfail : S.action x = false) :
    failed S x = true
    ∧ anyFailed S = true
    ∧ runExitCode S = 1
    ∧ (∀ z, DependsOn S z x → started S z = false)
    ∧ (∀ y, y ≠ x → ¬ DependsOn S y x →
        started (flipAction S x) y = started S y
        ∧ succeeded (flipAction S x) y = succeeded S y
        ∧ failed (flipAction S x) y = failed S y)
    ∧ (∀ y, y ≠ x → ¬ DependsOn S y x → S.action y = true →
        (∀ j, DependsOn S y j → S.action j = true) → succeeded S y = true)
    ∧ (∀ y, started S y = true → succeeded S y = true ∨ failed S y = true)
    ∧ (∀ y, started S y = false ∨ succeeded S y = true ∨ failed S y = true) := by
  have hfailed : failed S x = true := by
    rw [failed, hstart, hfail]
    rfl
  have hany : anyFailed S = true := by
    rw [anyFailed, List.any_eq_true]
    exact ⟨x, List.mem_range.mpr hx, hfailed⟩
  have hsucc : succeeded S x = false := by
    rw [succeeded_unfold S hwf x, hfail]
    simp
  refine ⟨hfailed, hany, by rw [runExitCode, hany]; rfl, ?_, ?_, ?_, ?_, ?_⟩
  · intro z hz
    exact depends_blocked S hwf z x hz hsucc
  · intro y hne hnd
    exact ⟨flip_started S x y hnd hne, flip_succeeded S x y hnd hne,
      flip_failed S x y hnd hne⟩
  · intro y _ _ hact hsub
    exact subtree_success S hwf y hsub hact
  · exact fun y => started_terminal S hwf y
  · intro y
    cases hst : started S y with
    | false => exact Or.inl rfl
    | true => exact Or.inr (started_terminal S hwf y hst)

/-- The concrete run closure used as the C1 witness: task 0 fails, task 1
depends on task 0, task 2 is independent and succeeds. -/
def wSched : Sched :=
  { numTasks := 3,
    deps := fun i => if i = 1 then [0] else [],
    action := fun i => decide (i ≠ 0) }

/-- The witness closure has well-founded dependencies. -/
lemma wSched_wf : wfDeps wSched := by
  intro i j hj
  by_cases hi : i = 1
  · subst hi
    simp [wSched] at hj
    omega
  · simp [wSched, hi] at hj

/-- Witness for C1 on the concrete closure: the failing task is failed,
the run resolves with status 1, the dependent task never starts, the
independent task succeeds. -/
theorem taskFailurePropagation_witness :
    failed wSched 0 = true
    ∧ runExitCode wSched = 1
    ∧ started wSched 1 = false
    ∧ succeeded wSched 2 = true := by
  have h := taskFailurePropagation wSched 0 wSched_wf (by decide) (by decide)
    (by decide)
  refine ⟨h.1, h.2.2.1, ?_, ?_⟩
  · exact h.2.2.2.1 1 (DependsOn.direct (by simp [wSched]))
  · exact h.2.2.2.2.2.1 2 (by decide)
      (by intro hd
          cases hd with
          | direct hj => simp [wSched] at hj
          | trans hj hd2 => simp [wSched] at hj)
      (by decide)
      (by intro j hd
          cases hd with
          | direct hj => simp [wSched] at hj
          | trans hj hd2 => simp [wSched] at hj)

end Gue

